import Mathlib

/-!
Verification of the natural-language specification of `get_errors.py`
(parallel-nmt) against a shallow embedding of its code.

The embedding follows the Python source closely:

* Scalar costs, modification times and progress percentages are modelled as
  rationals.  NumPy's `np.mean` of an empty list is NaN; we model a possibly-NaN
  float as `Option ℚ` with `none` standing for NaN.
* Python runtime exceptions that the code can raise (ZeroDivisionError from
  `/`, ValueError from `int(...)`, IndexError from `[...][0]`) are modelled with
  `Except PyError`; the error taxonomy of the specification (ConfigError,
  EmptyCorpusError) is included in `PyError` so that claims about those error
  kinds can be stated.
* The external collaborators (theano model compilation, checkpoint loading,
  `TextIterator`) are abstracted: a worker is parametrised by the compiled cost
  function `fCost`, `get_error` by the list of batches the corpus iterator
  yields and by the arrival order of results on the result queue, and the sweep
  driver by an oracle `evalCost` giving the mean cost `get_error` returns for a
  checkpoint path.
* The default `--name-format` regular expression
  `epoch_(.+?)_update_(.+?)\.npz` is implemented as an executable matcher with
  Python `re.search` semantics (leftmost match start, lazy groups with
  backtracking).
* Python's `sorted(..., key=lambda x: x[0])` is a stable ascending sort; it is
  modelled by a stable insertion sort, which is extensionally equal to every
  stable sort with the same key order.
-/

/-- Errors: Python runtime exceptions the code can raise, plus the error
taxonomy named by the specification (so claims about those kinds can be
stated). -/
inductive PyError where
  | zeroDivisionError
  | valueError
  | indexError
  | emptyCorpusError
  | configError
  | modelLoadError
deriving DecidableEq, Repr

instance {ε α : Type} [DecidableEq ε] [DecidableEq α] : DecidableEq (Except ε α) := fun a b =>
  match a, b with
  | .ok x, .ok y => decidable_of_iff (x = y) ⟨fun h => by rw [h], fun h => by injection h⟩
  | .error x, .error y => decidable_of_iff (x = y) ⟨fun h => by rw [h], fun h => by injection h⟩
  | .ok _, .error _ => isFalse (fun h => by injection h)
  | .error _, .ok _ => isFalse (fun h => by injection h)

/-- Python true division: raises ZeroDivisionError on a zero denominator. -/
def pyDiv (a b : ℚ) : Except PyError ℚ :=
  if b = 0 then .error .zeroDivisionError else .ok (a / b)

/-- NumPy mean of a list of scalars; the mean of an empty list is NaN,
modelled as `none`. -/
def npMean (xs : List ℚ) : Option ℚ :=
  if xs = [] then none else some (xs.sum / (xs.length : ℚ))

/-- Digit run of Python `int(...)`: accumulates decimal digits, allowing a
single underscore between digits (as Python does); returns `none` when the
run is empty or contains any other character. -/
def pyIntCore : List Char → Nat → Bool → Option Nat
  | [], _, false => none
  | [], acc, true => some acc
  | c :: cs, acc, seen =>
    if c.isDigit then pyIntCore cs (acc * 10 + (c.toNat - 48)) true
    else if c = '_' && seen && (match cs with | d :: _ => d.isDigit | [] => false) then
      pyIntCore cs acc true
    else none

/-- Python `int(s)`: strips surrounding whitespace, accepts an optional sign
followed by a nonempty digit run; `none` models an uncaught ValueError. -/
def pyInt (s : String) : Option Int :=
  let l := ((s.data.dropWhile (fun c => c.isWhitespace)).reverse.dropWhile
      (fun c => c.isWhitespace)).reverse
  match l with
  | '-' :: rest => (pyIntCore rest 0 false).map (fun n => -(n : Int))
  | '+' :: rest => (pyIntCore rest 0 false).map (fun n => (n : Int))
  | rest => (pyIntCore rest 0 false).map (fun n => (n : Int))

/-- Final path component (the part after the last slash), as used by
`os.path.splitext` to locate the extension. -/
def lastComponent (p : List Char) : List Char :=
  (p.reverse.takeWhile (fun c => c ≠ '/')).reverse

/-- Extension of a basename per `os.path.splitext`: the suffix from the last
dot, unless every character before that dot is itself a dot (leading dots do
not start an extension). -/
def extOfBasename (b : List Char) : List Char :=
  if b.contains '.' then
    let afterDot := (b.reverse.takeWhile (fun c => c ≠ '.')).reverse
    let i := b.length - (afterDot.length + 1)
    if (b.take i).any (fun c => c ≠ '.') then '.' :: afterDot else []
  else []

/-- Python `os.path.splitext(p)[1]`. -/
def pySplitextExt (p : String) : String :=
  ⟨extOfBasename (lastComponent p.data)⟩

/-- Lazy capture: splits `s` as `g ++ stop ++ rest` with `g` the shortest
nonempty prefix followed by the literal `stop`; implements a lazy group
`(.+?)` directly followed by a literal in the pattern.  `aux` carries the
group read so far (reversed) and is called with a nonempty accumulator. -/
def findLazyAux (stop : List Char) : List Char → List Char → Option (List Char × List Char)
  | accRev, rest =>
    if stop.isPrefixOf rest then some (accRev.reverse, rest.drop stop.length)
    else
      match rest with
      | [] => none
      | c :: cs => findLazyAux stop (c :: accRev) cs

/-- Entry point of the lazy capture: the group must consume at least one
character before the literal `stop` is tried. -/
def findLazy (stop : List Char) : List Char → Option (List Char × List Char)
  | [] => none
  | c :: cs => findLazyAux stop [c] cs

/-- Matches `(.+?)_update_(.+?)\.npz` against `accRev.reverse ++ rest` with
backtracking: the first group grows one character at a time; at every split
where the literal `_update_` follows, the lazy second group is tried, and on
failure the first group keeps growing, exactly as the Python engine
backtracks. -/
def matchAfterEpochAux : List Char → List Char → Option (List Char × List Char)
  | accRev, rest =>
    match
      (if ("_update_".data).isPrefixOf rest then
        (findLazy (".npz".data) (rest.drop 8)).map (fun p => (accRev.reverse, p.1))
      else none) with
    | some r => some r
    | none =>
      match rest with
      | [] => none
      | c :: cs => matchAfterEpochAux (c :: accRev) cs

/-- Matches `(.+?)_update_(.+?)\.npz` against `s` (first group nonempty). -/
def matchAfterEpoch (s : List Char) : Option (List Char × List Char) :=
  match s with
  | [] => none
  | c :: cs => matchAfterEpochAux [c] cs

/-- Python `re.search` with the default name format
`epoch_(.+?)_update_(.+?)\.npz`: tries every start position from the left and
returns the two captured groups of the leftmost match. -/
def searchDefault : List Char → Option (List Char × List Char)
  | [] => none
  | c :: cs =>
    match
      (if ("epoch_".data).isPrefixOf (c :: cs) then
        matchAfterEpoch ((c :: cs).drop 6)
      else none) with
    | some r => some r
    | none => searchDefault cs

/-- String-level wrapper for `searchDefault`, the model of
`re.search(re.compile(name_format), m)` at the default `--name-format`. -/
def defaultSearch (s : String) : Option (String × String) :=
  (searchDefault s.data).map (fun p => (⟨p.1⟩, ⟨p.2⟩))

/-- Worker body (model of `error_process`, lines 26-48): after device binding
and model compilation (external collaborators, abstracted into the compiled
cost function `fCost`), the worker repeatedly pulls a batch from the task
queue and pushes its scalar cost to the result queue until the sentinel;
given the subsequence `assigned` of batches it happens to consume, it
produces their costs in that order. -/
def error_process {α : Type} (fCost : α → ℚ) (assigned : List α) : List ℚ :=
  assigned.map fCost

/-- Observable outcome of one `get_error` call: the number of batches pushed,
the result values popped from the result queue (in arrival order), the
progress percentages printed after each pop, the mean cost (the value the
function returns), and the `(paramsPath, meanCost)` pair printed at the
end. -/
structure EvalRun where
  numBatches : Nat
  popped : List ℚ
  progress : List ℚ
  meanCost : Option ℚ
  reported : String × Option ℚ
deriving DecidableEq, Repr

/-- Progress loop body of `get_error` (lines 94-98): for each value of
`num_processed` the percentage `(num_processed / num_batches) * 100` is
computed with Python true division (which raises ZeroDivisionError on a zero
denominator) and printed. -/
def progressList (numBatches : Nat) : List Nat → Except PyError (List ℚ)
  | [] => .ok []
  | k :: ks =>
    match pyDiv (k : ℚ) (numBatches : ℚ) with
    | .error e => .error e
    | .ok p =>
      match progressList numBatches ks with
      | .error e => .error e
      | .ok rest => .ok (p * 100 :: rest)

/-- Evaluation coordinator (model of `get_error`, lines 51-104).  Loading of
options, dictionaries and parameters, worker spawning and the corpus iterator
are external collaborators; the embedding is parametrised by the list
`batches` the iterator yields (each pushed to the task queue while counting
`num_batches`) and by `arrival`, the order in which per-batch costs arrive on
the result queue.  The loop pops exactly `num_batches` results, printing a
progress percentage after each pop; the mean of the popped costs is printed
next to the checkpoint path and returned. -/
def get_error {α : Type} (paramsPath : String) (batches : List α) (arrival : List ℚ) :
    Except PyError EvalRun :=
  let numBatches := batches.length
  match progressList numBatches (List.range numBatches) with
  | .error e => .error e
  | .ok progress =>
    let costs := arrival.take numBatches
    let meanCost := npMean costs
    .ok ⟨numBatches, costs, progress, meanCost, (paramsPath, meanCost)⟩

/-- A regular file directly under the model directory: its full joined path
and its modification time (`os.path.getmtime`). -/
structure FileEntry where
  path : String
  mtime : ℚ
deriving DecidableEq, Repr

/-- One checkpoint record `(time, epoch, update, cost, model)` as appended to
`m_infos` (line 163). -/
structure MInfo where
  time : ℚ
  epoch : Int
  update : Int
  cost : ℚ
  model : String
deriving DecidableEq, Repr

/-- Mutable state of the sweep loop: the growing record list and the lines
printed so far (progress lines and warnings, in print order). -/
structure SweepState where
  infos : List MInfo
  messages : List String
deriving DecidableEq, Repr

/-- Progress line printed after evaluating the `i`-th of `total` checkpoint
files (line 164). -/
def processedMsg (i total : Nat) : String :=
  "processed " ++ toString i ++ "/" ++ toString total ++ " models"

/-- Warning printed for a checkpoint file whose name does not match the name
format (line 166). -/
def noMatchMsg (path : String) : String :=
  path ++ " did not match name format!"

/-- Loop body of `eval_multiple_models` (lines 156-166) for the `i`-th
checkpoint file `m`: on a regex match, `int(...)` converts the two captured
groups (an uncaught ValueError aborts the sweep), the record
`(mtime, epoch, update, cost, path)` is appended and a progress line printed;
on a non-match only a warning line is printed.  `evalCost` abstracts the
nested `get_error` call for the checkpoint path. -/
def processModel (search : String → Option (String × String)) (evalCost : String → ℚ)
    (total : Nat) (st : SweepState) (im : Nat × FileEntry) : Except PyError SweepState :=
  match search im.2.path with
  | some (g1, g2) =>
    match pyInt g1 with
    | none => .error .valueError
    | some epoch =>
      match pyInt g2 with
      | none => .error .valueError
      | some update =>
        .ok ⟨st.infos ++ [⟨im.2.mtime, epoch, update, evalCost im.2.path, im.2.path⟩],
             st.messages ++ [processedMsg im.1 total]⟩
  | none => .ok ⟨st.infos, st.messages ++ [noMatchMsg im.2.path]⟩

/-- Record list produced by the sweep loop over a list of checkpoint files,
with the first uncaught exception aborting it; a recursive restatement of the
record-building effect of the loop, used to reason about the fold. -/
def recordsOf (search : String → Option (String × String)) (evalCost : String → ℚ) :
    List FileEntry → Except PyError (List MInfo)
  | [] => .ok []
  | m :: ms =>
    match search m.path with
    | none => recordsOf search evalCost ms
    | some (g1, g2) =>
      match pyInt g1 with
      | none => .error .valueError
      | some epoch =>
        match pyInt g2 with
        | none => .error .valueError
        | some update =>
          match recordsOf search evalCost ms with
          | .error e => .error e
          | .ok rest => .ok (⟨m.mtime, epoch, update, evalCost m.path, m.path⟩ :: rest)

/-- Stable insertion of a record into a list sorted by ascending time: walks
past strictly earlier records and stops before the first record with an equal
or later time, so an inserted record precedes equal-time records that were
inserted earlier (which sit later in the original list). -/
def insertByTime (x : MInfo) : List MInfo → List MInfo
  | [] => [x]
  | y :: ys => if y.time < x.time then y :: insertByTime x ys else x :: y :: ys

/-- Model of `sorted(m_infos, key=lambda x: x[0])` (line 167): Python's
`sorted` is a stable ascending sort by the key; every stable sort with the
same key order is extensionally equal, so a stable insertion sort is a
faithful model. -/
def sortByTime (l : List MInfo) : List MInfo :=
  l.foldr insertByTime []

/-- One output row `sep.join(map(str, m_info))` (lines 170 and 175); Python's
`str` on the two float fields is abstracted as `strFloat`, and `str` on the
int fields is decimal notation. -/
def formatRow (strFloat : ℚ → String) (sep : String) (r : MInfo) : String :=
  String.intercalate sep
    [strFloat r.time, toString r.epoch, toString r.update, strFloat r.cost, r.model]

/-- Header line of the CSV report (line 173). -/
def csvHeader : String := "time,epoch,update,cost,model"

/-- Observable outcome of one `eval_multiple_models` call: the options file
passed to every `get_error` call, the sorted record list, the lines printed
by the loop, the tab-separated table printed to stdout, and the CSV lines
written to `outFile` when one was given. -/
structure SweepOut where
  optionsFile : String
  records : List MInfo
  messages : List String
  tableLines : List String
  csvLines : Option (List String)
deriving DecidableEq, Repr

/-- Checkpoint sweep driver (model of `eval_multiple_models`, lines 140-175).
`files` are the regular files directly under the model directory in listing
order; checkpoint files are those with extension `.npz` and the options file
is the first listed file with extension `.json` (`[...][0]` raises an
uncaught IndexError when there is none).  Each checkpoint file is matched
against the name format by `search`; the records are sorted by modification
time and rendered as a table and, when `outFile` is given, as a CSV with a
header line. -/
def eval_multiple_models (search : String → Option (String × String))
    (evalCost : String → ℚ) (strFloat : ℚ → String) (files : List FileEntry)
    (outFile : Bool) : Except PyError SweepOut :=
  let model_npzs := files.filter (fun f => pySplitextExt f.path == ".npz")
  match files.filter (fun f => pySplitextExt f.path == ".json") with
  | [] => .error .indexError
  | x :: _ =>
    match (List.enumFrom 1 model_npzs).foldlM
        (processModel search evalCost model_npzs.length) ⟨[], []⟩ with
    | .error e => .error e
    | .ok st =>
      let m_infos := sortByTime st.infos
      .ok ⟨x.path, m_infos, st.messages,
           m_infos.map (formatRow strFloat "\t"),
           if outFile then some (csvHeader :: m_infos.map (formatRow strFloat ",")) else none⟩

theorem progressList_pos (n : Nat) (hn : (n : ℚ) ≠ 0) (l : List Nat) :
    progressList n l = .ok (l.map (fun k : Nat => ((k : ℚ) / (n : ℚ)) * 100)) := by
  induction l with
  | nil => rfl
  | cons k ks ih =>
    simp only [progressList, pyDiv, if_neg hn, ih, List.map_cons]

theorem get_error_eq {α : Type} (p : String) (batches : List α) (arrival : List ℚ) :
    get_error p batches arrival =
      .ok ⟨batches.length, arrival.take batches.length,
        (List.range batches.length).map
          (fun k : Nat => ((k : ℚ) / (batches.length : ℚ)) * 100),
        npMean (arrival.take batches.length),
        (p, npMean (arrival.take batches.length))⟩ := by
  rcases Nat.eq_zero_or_pos batches.length with h0 | hpos
  · simp only [get_error, h0, List.range_zero, progressList, List.map_nil]
  · have hn : ((batches.length : ℚ)) ≠ 0 := by
      exact_mod_cast Nat.pos_iff_ne_zero.mp hpos
    simp only [get_error, progressList_pos batches.length hn]

theorem npMean_perm {l₁ l₂ : List ℚ} (h : l₁.Perm l₂) : npMean l₁ = npMean l₂ := by
  unfold npMean
  by_cases h1 : l₁ = []
  · subst h1
    rw [← h.nil_eq]
  · have h2 : l₂ ≠ [] := by
      intro hc
      subst hc
      exact h1 h.symm.nil_eq.symm
    rw [if_neg h1, if_neg h2, h.sum_eq, h.length_eq]

theorem insertByTime_perm (x : MInfo) (l : List MInfo) :
    (insertByTime x l).Perm (x :: l) := by
  induction l with
  | nil => exact List.Perm.refl _
  | cons y ys ih =>
    simp only [insertByTime]
    split
    · exact (ih.cons y).trans (List.Perm.swap x y ys)
    · exact List.Perm.refl _

theorem sortByTime_perm (l : List MInfo) : (sortByTime l).Perm l := by
  induction l with
  | nil => exact List.Perm.refl _
  | cons a l ih => exact (insertByTime_perm a (sortByTime l)).trans (ih.cons a)

theorem insertByTime_sorted (x : MInfo) (l : List MInfo)
    (h : l.Pairwise (fun a b => a.time ≤ b.time)) :
    (insertByTime x l).Pairwise (fun a b => a.time ≤ b.time) := by
  induction l with
  | nil => simp [insertByTime]
  | cons y ys ih =>
    rw [List.pairwise_cons] at h
    obtain ⟨hy, hys⟩ := h
    simp only [insertByTime]
    split
    · rename_i hlt
      rw [List.pairwise_cons]
      refine ⟨?_, ih hys⟩
      intro a ha
      rcases List.mem_cons.mp ((insertByTime_perm x ys).mem_iff.mp ha) with rfl | ha'
      · exact le_of_lt hlt
      · exact hy a ha'
    · rename_i hge
      have hxy : x.time ≤ y.time := le_of_not_lt hge
      rw [List.pairwise_cons]
      refine ⟨?_, List.pairwise_cons.mpr ⟨hy, hys⟩⟩
      intro a ha
      rcases List.mem_cons.mp ha with rfl | ha'
      · exact hxy
      · exact le_trans hxy (hy a ha')

theorem sortByTime_sorted (l : List MInfo) :
    (sortByTime l).Pairwise (fun a b => a.time ≤ b.time) := by
  induction l with
  | nil => exact List.Pairwise.nil
  | cons a l ih => exact insertByTime_sorted a (sortByTime l) ih

theorem insertByTime_filter (t : ℚ) (x : MInfo) (l : List MInfo) :
    (insertByTime x l).filter (fun r => decide (r.time = t)) =
      if x.time = t then x :: l.filter (fun r => decide (r.time = t))
      else l.filter (fun r => decide (r.time = t)) := by
  induction l with
  | nil =>
    simp only [insertByTime, List.filter]
    by_cases hx : x.time = t <;> simp [hx]
  | cons y ys ih =>
    simp only [insertByTime]
    split
    · rename_i hlt
      by_cases hx : x.time = t
      · by_cases hy : y.time = t
        · exfalso
          rw [hx, hy] at hlt
          exact lt_irrefl t hlt
        · simp [List.filter_cons, hy, hx, ih]
      · by_cases hy : y.time = t <;> simp [List.filter_cons, hy, hx, ih]
    · by_cases hx : x.time = t <;> simp [List.filter_cons, hx]

theorem sortByTime_filter (t : ℚ) (l : List MInfo) :
    (sortByTime l).filter (fun r => decide (r.time = t)) =
      l.filter (fun r => decide (r.time = t)) := by
  induction l with
  | nil => rfl
  | cons a l ih =>
    show (insertByTime a (sortByTime l)).filter _ = _
    rw [insertByTime_filter]
    by_cases ha : a.time = t <;> simp [ha, List.filter_cons, ih]

theorem recordsOf_append (search : String → Option (String × String))
    (evalCost : String → ℚ) (xs ys : List FileEntry) :
    recordsOf search evalCost (xs ++ ys) =
      match recordsOf search evalCost xs with
      | .error e => .error e
      | .ok a =>
        match recordsOf search evalCost ys with
        | .error e => .error e
        | .ok b => .ok (a ++ b) := by
  induction xs with
  | nil =>
    cases h : recordsOf search evalCost ys <;> simp [recordsOf, h]
  | cons m xs ih =>
    cases hs : search m.path with
    | none =>
      simp only [List.cons_append, recordsOf, hs]
      exact ih
    | some p =>
      obtain ⟨g1, g2⟩ := p
      cases h1 : pyInt g1 with
      | none => simp [List.cons_append, recordsOf, hs, h1]
      | some e =>
        cases h2 : pyInt g2 with
        | none => simp [List.cons_append, recordsOf, hs, h1, h2]
        | some u =>
          simp only [List.cons_append, recordsOf, hs, h1, h2]
          rw [show (xs.append ys) = xs ++ ys from rfl, ih]
          cases hxs : recordsOf search evalCost xs with
          | error e' => rfl
          | ok a =>
            cases hys : recordsOf search evalCost ys with
            | error e' => rfl
            | ok b => rfl

theorem recordsOf_skip (search : String → Option (String × String))
    (evalCost : String → ℚ) (pre post : List FileEntry) (f : FileEntry)
    (hf : search f.path = none) :
    recordsOf search evalCost (pre ++ f :: post) =
      recordsOf search evalCost (pre ++ post) := by
  have hfp : recordsOf search evalCost (f :: post) = recordsOf search evalCost post := by
    simp [recordsOf, hf]
  rw [recordsOf_append, recordsOf_append, hfp]

theorem enumFromSnd {α : Type} : ∀ (n : Nat) (l : List α),
    (List.enumFrom n l).map Prod.snd = l
  | _, [] => rfl
  | n, a :: l => by
    simp only [List.enumFrom_cons, List.map_cons]
    rw [enumFromSnd (n + 1) l]

theorem exceptOkBind {ε α β : Type} (a : α) (f : α → Except ε β) :
    (Except.ok a >>= f) = f a := rfl

theorem exceptErrorBind {ε α β : Type} (e : ε) (f : α → Except ε β) :
    ((Except.error e : Except ε α) >>= f) = .error e := rfl

theorem foldlM_processModel_ok (search : String → Option (String × String))
    (evalCost : String → ℚ) (total : Nat) :
    ∀ (l : List (Nat × FileEntry)) (st : SweepState) (r : List MInfo),
      recordsOf search evalCost (l.map Prod.snd) = .ok r →
      ∃ msgs, l.foldlM (processModel search evalCost total) st =
          .ok ⟨st.infos ++ r, st.messages ++ msgs⟩ ∧
        ∀ g ∈ l.map Prod.snd, search g.path = none → noMatchMsg g.path ∈ msgs := by
  intro l
  induction l with
  | nil =>
    intro st r hr
    injection hr with h
    subst h
    refine ⟨[], ?_, ?_⟩
    · simp only [List.foldlM_nil, List.append_nil]
      rfl
    · intro g hg
      simp at hg
  | cons im l ih =>
    intro st r hr
    obtain ⟨i, m⟩ := im
    simp only [List.map_cons] at hr
    cases hs : search m.path with
    | none =>
      simp only [recordsOf, hs] at hr
      obtain ⟨msgs, hfold, hmem⟩ := ih ⟨st.infos, st.messages ++ [noMatchMsg m.path]⟩ r hr
      refine ⟨noMatchMsg m.path :: msgs, ?_, ?_⟩
      · have hstep : processModel search evalCost total st (i, m) =
            .ok ⟨st.infos, st.messages ++ [noMatchMsg m.path]⟩ := by
          simp [processModel, hs]
        rw [List.foldlM_cons, hstep, exceptOkBind, hfold]
        simp [List.append_assoc]
      · intro g hg hgnone
        rcases List.mem_cons.mp hg with rfl | hg'
        · exact List.mem_cons_self _ _
        · exact List.mem_cons_of_mem _ (hmem g hg' hgnone)
    | some p =>
      obtain ⟨g1, g2⟩ := p
      cases h1 : pyInt g1 with
      | none => simp [recordsOf, hs, h1] at hr
      | some e =>
        cases h2 : pyInt g2 with
        | none => simp [recordsOf, hs, h1, h2] at hr
        | some u =>
          simp only [recordsOf, hs, h1, h2] at hr
          cases hrec : recordsOf search evalCost (l.map Prod.snd) with
          | error e' =>
            rw [hrec] at hr
            exact absurd hr (by simp)
          | ok rest =>
            rw [hrec] at hr
            injection hr with h
            subst h
            obtain ⟨msgs, hfold, hmem⟩ :=
              ih ⟨st.infos ++ [⟨m.mtime, e, u, evalCost m.path, m.path⟩],
                  st.messages ++ [processedMsg i total]⟩ rest hrec
            refine ⟨processedMsg i total :: msgs, ?_, ?_⟩
            · have hstep : processModel search evalCost total st (i, m) =
                  .ok ⟨st.infos ++ [⟨m.mtime, e, u, evalCost m.path, m.path⟩],
                       st.messages ++ [processedMsg i total]⟩ := by
                simp [processModel, hs, h1, h2]
              rw [List.foldlM_cons, hstep, exceptOkBind, hfold]
              simp [List.append_assoc]
            · intro g hg hgnone
              rcases List.mem_cons.mp hg with rfl | hg'
              · rw [hs] at hgnone
                exact absurd hgnone (by simp)
              · exact List.mem_cons_of_mem _ (hmem g hg' hgnone)

theorem foldlM_processModel_error (search : String → Option (String × String))
    (evalCost : String → ℚ) (total : Nat) :
    ∀ (l : List (Nat × FileEntry)) (st : SweepState) (err : PyError),
      recordsOf search evalCost (l.map Prod.snd) = .error err →
      l.foldlM (processModel search evalCost total) st = .error err := by
  intro l
  induction l with
  | nil =>
    intro st err hr
    simp [recordsOf] at hr
  | cons im l ih =>
    intro st err hr
    obtain ⟨i, m⟩ := im
    simp only [List.map_cons] at hr
    cases hs : search m.path with
    | none =>
      simp only [recordsOf, hs] at hr
      have hstep : processModel search evalCost total st (i, m) =
          .ok ⟨st.infos, st.messages ++ [noMatchMsg m.path]⟩ := by
        simp [processModel, hs]
      rw [List.foldlM_cons, hstep, exceptOkBind]
      exact ih _ err hr
    | some p =>
      obtain ⟨g1, g2⟩ := p
      cases h1 : pyInt g1 with
      | none =>
        simp only [recordsOf, hs, h1] at hr
        injection hr with h
        subst h
        have hstep : processModel search evalCost total st (i, m) = .error .valueError := by
          simp [processModel, hs, h1]
        rw [List.foldlM_cons, hstep, exceptErrorBind]
      | some e =>
        cases h2 : pyInt g2 with
        | none =>
          simp only [recordsOf, hs, h1, h2] at hr
          injection hr with h
          subst h
          have hstep : processModel search evalCost total st (i, m) = .error .valueError := by
            simp [processModel, hs, h1, h2]
          rw [List.foldlM_cons, hstep, exceptErrorBind]
        | some u =>
          simp only [recordsOf, hs, h1, h2] at hr
          cases hrec : recordsOf search evalCost (l.map Prod.snd) with
          | error e' =>
            rw [hrec] at hr
            injection hr with h
            subst h
            have hstep : processModel search evalCost total st (i, m) =
                .ok ⟨st.infos ++ [⟨m.mtime, e, u, evalCost m.path, m.path⟩],
                     st.messages ++ [processedMsg i total]⟩ := by
              simp [processModel, hs, h1, h2]
            rw [List.foldlM_cons, hstep, exceptOkBind]
            exact ih _ _ hrec
          | ok rest =>
            rw [hrec] at hr
            exact absurd hr (by simp)

theorem em_json_nil (search : String → Option (String × String)) (evalCost : String → ℚ)
    (strFloat : ℚ → String) (files : List FileEntry) (outFile : Bool)
    (hj : files.filter (fun f => pySplitextExt f.path == ".json") = []) :
    eval_multiple_models search evalCost strFloat files outFile = .error .indexError := by
  simp only [eval_multiple_models, hj]

theorem em_records_error (search : String → Option (String × String)) (evalCost : String → ℚ)
    (strFloat : ℚ → String) (files : List FileEntry) (outFile : Bool)
    (x : FileEntry) (xs : List FileEntry) (err : PyError)
    (hj : files.filter (fun f => pySplitextExt f.path == ".json") = x :: xs)
    (hr : recordsOf search evalCost
      (files.filter (fun f => pySplitextExt f.path == ".npz")) = .error err) :
    eval_multiple_models search evalCost strFloat files outFile = .error err := by
  have hrec : recordsOf search evalCost
      ((List.enumFrom 1 (files.filter (fun f => pySplitextExt f.path == ".npz"))).map
        Prod.snd) = .error err := by
    rw [enumFromSnd]
    exact hr
  have hfold := foldlM_processModel_error search evalCost
    (files.filter (fun f => pySplitextExt f.path == ".npz")).length _ ⟨[], []⟩ err hrec
  simp only [eval_multiple_models, hj, hfold]

theorem em_records_ok (search : String → Option (String × String)) (evalCost : String → ℚ)
    (strFloat : ℚ → String) (files : List FileEntry) (outFile : Bool)
    (x : FileEntry) (xs : List FileEntry) (r : List MInfo)
    (hj : files.filter (fun f => pySplitextExt f.path == ".json") = x :: xs)
    (hr : recordsOf search evalCost
      (files.filter (fun f => pySplitextExt f.path == ".npz")) = .ok r) :
    ∃ msgs, eval_multiple_models search evalCost strFloat files outFile =
        .ok ⟨x.path, sortByTime r, msgs,
             (sortByTime r).map (formatRow strFloat "\t"),
             if outFile then some (csvHeader :: (sortByTime r).map (formatRow strFloat ","))
             else none⟩ ∧
      ∀ g ∈ files.filter (fun f => pySplitextExt f.path == ".npz"),
        search g.path = none → noMatchMsg g.path ∈ msgs := by
  have hrec : recordsOf search evalCost
      ((List.enumFrom 1 (files.filter (fun f => pySplitextExt f.path == ".npz"))).map
        Prod.snd) = .ok r := by
    rw [enumFromSnd]
    exact hr
  obtain ⟨msgs, hfold, hmem⟩ := foldlM_processModel_ok search evalCost
    (files.filter (fun f => pySplitextExt f.path == ".npz")).length _ ⟨[], []⟩ r hrec
  rw [enumFromSnd] at hmem
  refine ⟨msgs, ?_, hmem⟩
  simp only [eval_multiple_models, hj, hfold, List.nil_append]

/-- Claim C1 counterexample: on an empty corpus (zero batches) `get_error`
does not fail with EmptyCorpusError; it returns normally with a NaN mean
(no guard exists in the code). -/
theorem c1_counterexample :
    get_error "m" ([] : List Unit) [] = .ok ⟨0, [], [], none, ("m", none)⟩ ∧
      get_error "m" ([] : List Unit) [] ≠ .error .emptyCorpusError :=
  ⟨by decide, by decide⟩

/-- Claim C1 (amended): when the corpus yields zero batches, `get_error`
neither raises EmptyCorpusError nor divides by zero: the progress loop body
(which contains the division by numBatches) is executed zero times, no cost
is popped, and the function returns normally with the NaN mean of an empty
list (np.mean of no values), reporting (paramsPath, NaN). -/
theorem c1_empty_corpus (α : Type) (paramsPath : String) :
    get_error paramsPath ([] : List α) [] =
      .ok ⟨0, [], [], none, (paramsPath, none)⟩ := rfl

/-- Claim C2 counterexample: with one batch, the progress update emitted
after popping the first (k = 1) result is 0 percent, not
k/numBatches·100 = 100 percent. -/
theorem c2_counterexample :
    ∃ out, get_error "m" [()] [5] = .ok out ∧
      out.progress = [0] ∧ (0 : ℚ) ≠ (1 : ℚ) / (1 : ℚ) * 100 := by
  refine ⟨_, get_error_eq "m" [()] [5], ?_, by norm_num⟩
  show ((List.range 1).map fun k : Nat => ((k : ℚ) / (([()].length : Nat) : ℚ)) * 100) = [0]
  rw [show List.range 1 = [0] by decide]
  simp

/-- Claim C2 (amended): after popping the k-th result (1 ≤ k ≤ numBatches),
the emitted progress update equals (k-1)/numBatches·100: the counter used is
the number of results popped before the current one, so the updates run from
0 percent up to (numBatches-1)/numBatches·100 and never reach 100 percent.
Stated with the 0-based index j = k-1: the (j+1)-st update is
j/numBatches·100. -/
theorem c2_progress (α : Type) (paramsPath : String) (batches : List α)
    (arrival : List ℚ) (j : Nat) (hj : j < batches.length) :
    ∃ out, get_error paramsPath batches arrival = .ok out ∧
      out.progress.length = batches.length ∧
      out.progress[j]? = some (((j : ℚ) / (batches.length : ℚ)) * 100) := by
  refine ⟨_, get_error_eq paramsPath batches arrival, ?_, ?_⟩
  · show ((List.range batches.length).map _).length = batches.length
    rw [List.length_map, List.length_range]
  · show ((List.range batches.length).map _)[j]? = _
    rw [List.getElem?_map, List.getElem?_range hj]
    rfl

/-- Claim C2 (amended) witness at two batches: the update printed after the
first pop is 0/2·100. -/
theorem c2_progress_witness :
    ∃ out, get_error "m" [(), ()] [5, 7] = .ok out ∧
      out.progress.length = [(), ()].length ∧
      out.progress[0]? = some ((((0 : Nat) : ℚ) / (([(), ()].length : Nat) : ℚ)) * 100) :=
  c2_progress Unit "m" [(), ()] [5, 7] 0 (by decide)

/-- Claim C4: for a corpus producing numBatches > 0 batches whose per-batch
costs arrive on the result queue in any order, `get_error` pops exactly
numBatches values (draining every pushed batch's result), reduces them with
the arithmetic mean, reports the pair (paramsPath, meanCost) and returns
that mean. -/
theorem c4_mean (α : Type) (paramsPath : String) (batches : List α) (fCost : α → ℚ)
    (arrival : List ℚ) (hperm : arrival.Perm (batches.map fCost))
    (hpos : 0 < batches.length) :
    ∃ out, get_error paramsPath batches arrival = .ok out ∧
      out.numBatches = batches.length ∧
      out.popped = arrival ∧
      out.meanCost = some ((batches.map fCost).sum / (batches.length : ℚ)) ∧
      out.reported = (paramsPath, out.meanCost) := by
  have hlen : arrival.length = batches.length := by
    rw [hperm.length_eq, List.length_map]
  have htake : arrival.take batches.length = arrival := by
    rw [← hlen, List.take_length]
  have hne : arrival ≠ [] := by
    intro hc
    rw [hc] at hlen
    simp at hlen
    omega
  refine ⟨_, get_error_eq paramsPath batches arrival, rfl, htake, ?_, rfl⟩
  show npMean (arrival.take batches.length) = _
  rw [htake]
  unfold npMean
  rw [if_neg hne, hperm.sum_eq, hlen]

/-- Claim C4 witness at three batches arriving out of order. -/
theorem c4_mean_witness :
    ∃ out, get_error "m" [(1 : ℚ), 2, 3] [2, 3, 1] = .ok out ∧
      out.numBatches = [(1 : ℚ), 2, 3].length ∧
      out.popped = [2, 3, 1] ∧
      out.meanCost = some (([(1 : ℚ), 2, 3].map id).sum / (([(1 : ℚ), 2, 3].length : Nat) : ℚ)) ∧
      out.reported = ("m", out.meanCost) :=
  c4_mean ℚ "m" [1, 2, 3] id [2, 3, 1] (by decide) (by decide)

/-- Claim C6: the mean cost is independent of the number of workers: for any
partition of the batches into per-worker assignments (each batch consumed by
exactly one worker) and any arrival order of the workers' results, the mean
`get_error` computes equals the one computed when a single worker processes
every batch in order.  Costs are exact rationals here, so equality is exact
(hence within any floating-point tolerance). -/
theorem c6_worker_count (α : Type) (paramsPath : String) (batches : List α)
    (fCost : α → ℚ) (assignments : List (List α)) (arrivalN : List ℚ)
    (hpart : assignments.flatten.Perm batches)
    (harr : arrivalN.Perm ((assignments.map (error_process fCost)).flatten)) :
    ∃ outN out1,
      get_error paramsPath batches arrivalN = .ok outN ∧
      get_error paramsPath batches (error_process fCost batches) = .ok out1 ∧
      outN.meanCost = out1.meanCost := by
  have hflat : (assignments.map (error_process fCost)).flatten =
      assignments.flatten.map fCost := (List.map_flatten fCost assignments).symm
  have hperm : arrivalN.Perm (batches.map fCost) := by
    rw [hflat] at harr
    exact harr.trans (hpart.map fCost)
  have hlenN : arrivalN.length = batches.length := by
    rw [hperm.length_eq, List.length_map]
  have htakeN : arrivalN.take batches.length = arrivalN := by
    rw [← hlenN, List.take_length]
  have htake1 : (error_process fCost batches).take batches.length =
      error_process fCost batches := by
    show (batches.map fCost).take batches.length = batches.map fCost
    rw [← List.length_map batches fCost, List.take_length]
  refine ⟨_, _, get_error_eq paramsPath batches arrivalN,
    get_error_eq paramsPath batches (error_process fCost batches), ?_⟩
  show npMean (arrivalN.take batches.length) =
    npMean ((error_process fCost batches).take batches.length)
  rw [htakeN, htake1]
  exact npMean_perm hperm

/-- Claim C6 witness: two batches split across two workers, results arriving
in reversed order. -/
theorem c6_worker_count_witness :
    ∃ outN out1,
      get_error "m" [(1 : ℚ), 2] [2, 1] = .ok outN ∧
      get_error "m" [(1 : ℚ), 2] (error_process id [(1 : ℚ), 2]) = .ok out1 ∧
      outN.meanCost = out1.meanCost :=
  c6_worker_count ℚ "m" [1, 2] id [[2], [1]] [2, 1] (by decide) (by decide)

/-- Claim C3 counterexample: a model directory with two options (JSON) files
does not make the sweep fail with ConfigError — it silently picks the first
one and completes normally. -/
theorem c3_counterexample :
    eval_multiple_models defaultSearch (fun _ => 0) (fun _ => "")
        [⟨"d/a.json", 0⟩, ⟨"d/b.json", 0⟩] false =
      .ok ⟨"d/a.json", [], [], [], none⟩ ∧
    eval_multiple_models defaultSearch (fun _ => 0) (fun _ => "")
        [⟨"d/a.json", 0⟩, ⟨"d/b.json", 0⟩] false ≠ .error .configError :=
  ⟨by decide, by decide⟩

/-- Claim C3 (amended): the sweep does not guard the options-file count and
never raises ConfigError: with zero JSON files the `[...][0]` lookup aborts
the sweep with an uncaught IndexError, and with one or more JSON files the
first one in directory-listing order is silently used as the options
file. -/
theorem c3_options_file (search : String → Option (String × String))
    (evalCost : String → ℚ) (strFloat : ℚ → String) (files : List FileEntry)
    (outFile : Bool) :
    (files.filter (fun g => pySplitextExt g.path == ".json") = [] →
      eval_multiple_models search evalCost strFloat files outFile = .error .indexError) ∧
    (∀ j js, files.filter (fun g => pySplitextExt g.path == ".json") = j :: js →
      ∀ out, eval_multiple_models search evalCost strFloat files outFile = .ok out →
        out.optionsFile = j.path) := by
  constructor
  · intro hj
    exact em_json_nil search evalCost strFloat files outFile hj
  · intro j js hj out hout
    cases hr : recordsOf search evalCost
        (files.filter (fun g => pySplitextExt g.path == ".npz")) with
    | error e =>
      rw [em_records_error search evalCost strFloat files outFile j js e hj hr] at hout
      exact absurd hout (by simp)
    | ok r =>
      obtain ⟨msgs, hem, _⟩ := em_records_ok search evalCost strFloat files outFile j js r hj hr
      rw [hem] at hout
      injection hout with h
      rw [← h]

/-- Claim C3 (amended) witness: with no JSON file the sweep aborts with
IndexError; with two JSON files the first is picked. -/
theorem c3_options_file_witness :
    eval_multiple_models defaultSearch (fun _ => 0) (fun _ => "")
        [⟨"d/x.npz", 0⟩] false = .error .indexError ∧
    SweepOut.optionsFile ⟨"d/a.json", [], [], [], none⟩ =
      FileEntry.path ⟨"d/a.json", 0⟩ :=
  ⟨(c3_options_file defaultSearch (fun _ => 0) (fun _ => "") [⟨"d/x.npz", 0⟩] false).1
      (by decide),
   (c3_options_file defaultSearch (fun _ => 0) (fun _ => "")
        [⟨"d/a.json", 0⟩, ⟨"d/b.json", 0⟩] false).2
      ⟨"d/a.json", 0⟩ [⟨"d/b.json", 0⟩] (by decide)
      ⟨"d/a.json", [], [], [], none⟩ (by decide)⟩

/-- Claim C5: for a checkpoint filename matching the name format, the first
capturing group is interpreted as the epoch and the second as the update of
the appended record; in particular, with the default pattern, the filenames
m_epoch_3_update_100.npz and m_epoch_1_update_50.npz yield records with
(epoch, update) = (3, 100) and (1, 50) respectively. -/
theorem c5_epoch_update :
    (∀ (search : String → Option (String × String)) (evalCost : String → ℚ)
       (total : Nat) (st : SweepState) (i : Nat) (m : FileEntry) (g1 g2 : String)
       (e u : Int), search m.path = some (g1, g2) → pyInt g1 = some e →
       pyInt g2 = some u →
       processModel search evalCost total st (i, m) =
         .ok ⟨st.infos ++ [⟨m.mtime, e, u, evalCost m.path, m.path⟩],
              st.messages ++ [processedMsg i total]⟩) ∧
    (∃ out, eval_multiple_models defaultSearch (fun _ => 0) (fun _ => "")
        [⟨"d/m_epoch_3_update_100.npz", 2⟩, ⟨"d/m_epoch_1_update_50.npz", 1⟩,
         ⟨"d/options.json", 0⟩] false = .ok out ∧
      out.records.map (fun r => (r.model, r.epoch, r.update)) =
        [("d/m_epoch_1_update_50.npz", 1, 50), ("d/m_epoch_3_update_100.npz", 3, 100)]) := by
  constructor
  · intro search evalCost total st i m g1 g2 e u hs h1 h2
    simp [processModel, hs, h1, h2]
  · exact ⟨⟨"d/options.json",
      [⟨1, 1, 50, 0, "d/m_epoch_1_update_50.npz"⟩, ⟨2, 3, 100, 0, "d/m_epoch_3_update_100.npz"⟩],
      ["processed 1/2 models", "processed 2/2 models"],
      ["\t1\t50\t\td/m_epoch_1_update_50.npz", "\t3\t100\t\td/m_epoch_3_update_100.npz"],
      none⟩, by decide, by decide⟩

/-- Claim C5 witness: the general part applied to the default pattern on a
concrete matching filename. -/
theorem c5_epoch_update_witness :
    processModel defaultSearch (fun _ => 0) 2 ⟨[], []⟩ (1, ⟨"d/m_epoch_3_update_100.npz", 2⟩) =
      .ok ⟨[⟨2, 3, 100, 0, "d/m_epoch_3_update_100.npz"⟩], [processedMsg 1 2]⟩ :=
  c5_epoch_update.1 defaultSearch (fun _ => 0) 2 ⟨[], []⟩ 1
    ⟨"d/m_epoch_3_update_100.npz", 2⟩ "3" "100" 3 100 (by decide) (by decide) (by decide)

/-- Claim C7: a checkpoint (.npz) file whose name does not match the name
format is skipped: the sweep's records, chosen options file and success or
failure are exactly those of the same directory without that file, and a
warning naming the file is printed; the non-match never aborts the sweep. -/
theorem c7_nonmatch_skipped (search : String → Option (String × String))
    (evalCost : String → ℚ) (strFloat : ℚ → String) (outFile : Bool)
    (pre post : List FileEntry) (f : FileEntry)
    (hnpz : pySplitextExt f.path = ".npz") (hf : search f.path = none) :
    (∃ out out',
      eval_multiple_models search evalCost strFloat (pre ++ f :: post) outFile = .ok out ∧
      eval_multiple_models search evalCost strFloat (pre ++ post) outFile = .ok out' ∧
      out.records = out'.records ∧ out.optionsFile = out'.optionsFile ∧
      noMatchMsg f.path ∈ out.messages) ∨
    (∃ err,
      eval_multiple_models search evalCost strFloat (pre ++ f :: post) outFile = .error err ∧
      eval_multiple_models search evalCost strFloat (pre ++ post) outFile = .error err) := by
  have hjson_f : (pySplitextExt f.path == ".json") = false := by
    rw [hnpz]
    decide
  have hnpz_f : (pySplitextExt f.path == ".npz") = true := by
    rw [hnpz]
    decide
  have hjeq : (pre ++ f :: post).filter (fun g => pySplitextExt g.path == ".json") =
      (pre ++ post).filter (fun g => pySplitextExt g.path == ".json") := by
    simp [List.filter_append, List.filter_cons, hjson_f]
  have hneq : (pre ++ f :: post).filter (fun g => pySplitextExt g.path == ".npz") =
      pre.filter (fun g => pySplitextExt g.path == ".npz") ++ f ::
        post.filter (fun g => pySplitextExt g.path == ".npz") := by
    simp [List.filter_append, List.filter_cons, hnpz_f]
  have hrec_eq : recordsOf search evalCost
        ((pre ++ f :: post).filter (fun g => pySplitextExt g.path == ".npz")) =
      recordsOf search evalCost
        ((pre ++ post).filter (fun g => pySplitextExt g.path == ".npz")) := by
    rw [hneq, List.filter_append, recordsOf_skip search evalCost _ _ f hf]
  cases hj : (pre ++ post).filter (fun g => pySplitextExt g.path == ".json") with
  | nil =>
    right
    exact ⟨.indexError,
      em_json_nil search evalCost strFloat _ outFile (hjeq.trans hj),
      em_json_nil search evalCost strFloat _ outFile hj⟩
  | cons x xs =>
    cases hr : recordsOf search evalCost
        ((pre ++ post).filter (fun g => pySplitextExt g.path == ".npz")) with
    | error e =>
      right
      exact ⟨e,
        em_records_error search evalCost strFloat _ outFile x xs e (hjeq.trans hj)
          (hrec_eq.trans hr),
        em_records_error search evalCost strFloat _ outFile x xs e hj hr⟩
    | ok r =>
      left
      obtain ⟨msgs, hem, hmem⟩ := em_records_ok search evalCost strFloat
        (pre ++ f :: post) outFile x xs r (hjeq.trans hj) (hrec_eq.trans hr)
      obtain ⟨msgs', hem', _⟩ := em_records_ok search evalCost strFloat
        (pre ++ post) outFile x xs r hj hr
      refine ⟨_, _, hem, hem', rfl, rfl, ?_⟩
      refine hmem f ?_ hf
      rw [hneq]
      exact List.mem_append_right _ (List.mem_cons_self f _)

/-- Claim C7 witness: a directory with a non-matching checkpoint file
produces the same records as without it, plus the warning. -/
theorem c7_nonmatch_skipped_witness :
    (∃ out out',
      eval_multiple_models defaultSearch (fun _ => 0) (fun _ => "")
        ([⟨"d/options.json", 0⟩] ++ ⟨"d/bad.npz", 1⟩ :: [⟨"d/epoch_1_update_2.npz", 3⟩])
        false = .ok out ∧
      eval_multiple_models defaultSearch (fun _ => 0) (fun _ => "")
        ([⟨"d/options.json", 0⟩] ++ [⟨"d/epoch_1_update_2.npz", 3⟩]) false = .ok out' ∧
      out.records = out'.records ∧ out.optionsFile = out'.optionsFile ∧
      noMatchMsg "d/bad.npz" ∈ out.messages) ∨
    (∃ err,
      eval_multiple_models defaultSearch (fun _ => 0) (fun _ => "")
        ([⟨"d/options.json", 0⟩] ++ ⟨"d/bad.npz", 1⟩ :: [⟨"d/epoch_1_update_2.npz", 3⟩])
        false = .error err ∧
      eval_multiple_models defaultSearch (fun _ => 0) (fun _ => "")
        ([⟨"d/options.json", 0⟩] ++ [⟨"d/epoch_1_update_2.npz", 3⟩]) false = .error err) :=
  c7_nonmatch_skipped defaultSearch (fun _ => 0) (fun _ => "") false
    [⟨"d/options.json", 0⟩] [⟨"d/epoch_1_update_2.npz", 3⟩] ⟨"d/bad.npz", 1⟩
    (by decide) (by decide)

/-- Claim C8: the printed record list is sorted by modification time
ascending, is a permutation of the records in directory-listing (loop)
order, and the sort is stable: for every time value, the records with that
time appear in the output in exactly their loop order. -/
theorem c8_sorted_stable (search : String → Option (String × String))
    (evalCost : String → ℚ) (strFloat : ℚ → String) (files : List FileEntry)
    (outFile : Bool) (out : SweepOut) (r : List MInfo)
    (hout : eval_multiple_models search evalCost strFloat files outFile = .ok out)
    (hr : recordsOf search evalCost
      (files.filter (fun g => pySplitextExt g.path == ".npz")) = .ok r) :
    out.records.Pairwise (fun a b => a.time ≤ b.time) ∧
    out.records.Perm r ∧
    ∀ t, out.records.filter (fun x => decide (x.time = t)) =
      r.filter (fun x => decide (x.time = t)) := by
  cases hj : files.filter (fun g => pySplitextExt g.path == ".json") with
  | nil =>
    rw [em_json_nil search evalCost strFloat files outFile hj] at hout
    exact absurd hout (by simp)
  | cons x xs =>
    obtain ⟨msgs, hem, _⟩ := em_records_ok search evalCost strFloat files outFile x xs r hj hr
    rw [hem] at hout
    injection hout with h
    subst h
    exact ⟨sortByTime_sorted r, sortByTime_perm r, fun t => sortByTime_filter t r⟩

/-- Claim C8 witness: two records with equal modification times keep their
directory-listing order in the output. -/
theorem c8_sorted_stable_witness :
    ([⟨5, 1, 1, 0, "d/epoch_1_update_1.npz"⟩,
      ⟨5, 2, 2, 0, "d/epoch_2_update_2.npz"⟩] : List MInfo).Pairwise
        (fun a b => a.time ≤ b.time) ∧
    ([⟨5, 1, 1, 0, "d/epoch_1_update_1.npz"⟩,
      ⟨5, 2, 2, 0, "d/epoch_2_update_2.npz"⟩] : List MInfo).Perm
      [⟨5, 1, 1, 0, "d/epoch_1_update_1.npz"⟩, ⟨5, 2, 2, 0, "d/epoch_2_update_2.npz"⟩] ∧
    ([⟨5, 1, 1, 0, "d/epoch_1_update_1.npz"⟩,
      ⟨5, 2, 2, 0, "d/epoch_2_update_2.npz"⟩] : List MInfo).filter
        (fun x => decide (x.time = 5)) =
      ([⟨5, 1, 1, 0, "d/epoch_1_update_1.npz"⟩,
        ⟨5, 2, 2, 0, "d/epoch_2_update_2.npz"⟩] : List MInfo).filter
        (fun x => decide (x.time = 5)) := by
  have h := c8_sorted_stable defaultSearch (fun _ => 0) (fun _ => "F")
    [⟨"d/options.json", 0⟩, ⟨"d/epoch_1_update_1.npz", 5⟩, ⟨"d/epoch_2_update_2.npz", 5⟩]
    false
    ⟨"d/options.json",
     [⟨5, 1, 1, 0, "d/epoch_1_update_1.npz"⟩, ⟨5, 2, 2, 0, "d/epoch_2_update_2.npz"⟩],
     ["processed 1/2 models", "processed 2/2 models"],
     ["F\t1\t1\tF\td/epoch_1_update_1.npz", "F\t2\t2\tF\td/epoch_2_update_2.npz"],
     none⟩
    [⟨5, 1, 1, 0, "d/epoch_1_update_1.npz"⟩, ⟨5, 2, 2, 0, "d/epoch_2_update_2.npz"⟩]
    (by decide) (by decide)
  exact ⟨h.1, h.2.1, h.2.2 5⟩

/-- Claim C9: when an output file is given, the sweep produces CSV content
whose first line is exactly the header time,epoch,update,cost,model,
followed by one comma-separated row per checkpoint record; the rows are
rendered from the same sorted record list as the tab-separated table printed
to stdout, hence in the same order (opening the path with mode w replaces
any previous content). -/
theorem c9_csv (search : String → Option (String × String)) (evalCost : String → ℚ)
    (strFloat : ℚ → String) (files : List FileEntry) (out : SweepOut)
    (hout : eval_multiple_models search evalCost strFloat files true = .ok out) :
    out.csvLines = some ("time,epoch,update,cost,model" ::
      out.records.map (formatRow strFloat ",")) ∧
    out.tableLines = out.records.map (formatRow strFloat "\t") := by
  cases hj : files.filter (fun g => pySplitextExt g.path == ".json") with
  | nil =>
    rw [em_json_nil search evalCost strFloat files true hj] at hout
    exact absurd hout (by simp)
  | cons x xs =>
    cases hr : recordsOf search evalCost
        (files.filter (fun g => pySplitextExt g.path == ".npz")) with
    | error e =>
      rw [em_records_error search evalCost strFloat files true x xs e hj hr] at hout
      exact absurd hout (by simp)
    | ok r =>
      obtain ⟨msgs, hem, _⟩ := em_records_ok search evalCost strFloat files true x xs r hj hr
      rw [hem] at hout
      injection hout with h
      subst h
      exact ⟨rfl, rfl⟩

/-- Claim C9 witness on a one-checkpoint directory. -/
theorem c9_csv_witness :
    SweepOut.csvLines
        ⟨"d/options.json", [⟨3, 1, 2, 0, "d/epoch_1_update_2.npz"⟩],
         ["processed 1/1 models"], ["F\t1\t2\tF\td/epoch_1_update_2.npz"],
         some ["time,epoch,update,cost,model", "F,1,2,F,d/epoch_1_update_2.npz"]⟩ =
      some ("time,epoch,update,cost,model" ::
        ([⟨3, 1, 2, 0, "d/epoch_1_update_2.npz"⟩] : List MInfo).map
          (formatRow (fun _ => "F") ",")) ∧
    SweepOut.tableLines
        ⟨"d/options.json", [⟨3, 1, 2, 0, "d/epoch_1_update_2.npz"⟩],
         ["processed 1/1 models"], ["F\t1\t2\tF\td/epoch_1_update_2.npz"],
         some ["time,epoch,update,cost,model", "F,1,2,F,d/epoch_1_update_2.npz"]⟩ =
      ([⟨3, 1, 2, 0, "d/epoch_1_update_2.npz"⟩] : List MInfo).map
        (formatRow (fun _ => "F") "\t") :=
  c9_csv defaultSearch (fun _ => 0) (fun _ => "F")
    [⟨"d/options.json", 0⟩, ⟨"d/epoch_1_update_2.npz", 3⟩]
    ⟨"d/options.json", [⟨3, 1, 2, 0, "d/epoch_1_update_2.npz"⟩],
     ["processed 1/1 models"], ["F\t1\t2\tF\td/epoch_1_update_2.npz"],
     some ["time,epoch,update,cost,model", "F,1,2,F,d/epoch_1_update_2.npz"]⟩
    (by decide)

/-- Claim C10: a checkpoint filename that matches the name format but whose
first or second captured group is not a valid integer literal makes the
`int(...)` conversion raise an uncaught ValueError that aborts the entire
sweep (provided the files before it processed without error), unlike a
non-matching filename which is merely skipped. -/
theorem c10_valueerror (search : String → Option (String × String))
    (evalCost : String → ℚ) (strFloat : ℚ → String) (outFile : Bool)
    (files : List FileEntry) (x : FileEntry) (xs : List FileEntry)
    (pre post : List FileEntry) (f : FileEntry) (r : List MInfo) (g1 g2 : String)
    (hj : files.filter (fun g => pySplitextExt g.path == ".json") = x :: xs)
    (hn : files.filter (fun g => pySplitextExt g.path == ".npz") = pre ++ f :: post)
    (hpre : recordsOf search evalCost pre = .ok r)
    (hf : search f.path = some (g1, g2))
    (hbad : pyInt g1 = none ∨ pyInt g2 = none) :
    eval_multiple_models search evalCost strFloat files outFile =
      .error .valueError := by
  have hstep : recordsOf search evalCost (f :: post) = .error .valueError := by
    rcases hbad with hb | hb
    · simp [recordsOf, hf, hb]
    · cases h1 : pyInt g1 with
      | none => simp [recordsOf, hf, h1]
      | some e => simp [recordsOf, hf, h1, hb]
  have hrec : recordsOf search evalCost
      (files.filter (fun g => pySplitextExt g.path == ".npz")) = .error .valueError := by
    rw [hn, recordsOf_append, hpre, hstep]
  exact em_records_error search evalCost strFloat files outFile x xs .valueError hj hrec

/-- Claim C10 witness: under the default pattern, epoch_3a_update_5.npz
matches with first group 3a, whose int conversion fails and aborts the
sweep. -/
theorem c10_valueerror_witness :
    eval_multiple_models defaultSearch (fun _ => 0) (fun _ => "")
      [⟨"d/options.json", 0⟩, ⟨"d/epoch_3a_update_5.npz", 1⟩] false =
      .error .valueError :=
  c10_valueerror defaultSearch (fun _ => 0) (fun _ => "") false
    [⟨"d/options.json", 0⟩, ⟨"d/epoch_3a_update_5.npz", 1⟩]
    ⟨"d/options.json", 0⟩ [] [] [] ⟨"d/epoch_3a_update_5.npz", 1⟩ [] "3a" "5"
    (by decide) (by decide) (by decide) (by decide) (Or.inl (by decide))
